import Mathlib

/-!
Verification of the `jimicup` Cloudflare worker (`src/worker.js`), a reverse
proxy in front of the Google generative-language API.  The worker's core is a
streaming adaptation layer: for paths ending in `:streamGenerateContent` it
returns an open SSE stream immediately, emits heartbeat frames on a 2-second
timer while a non-streaming upstream call is in flight, and then relays the
upstream result as terminal frames.

This file gives a shallow embedding of that worker:
* `Json` / `Json.ser` model the JS values built by the worker and
  `JSON.stringify`;
* `selectKeyParam` / `prepareTargetUrl` model the key rotation and URL
  building (`prepareTargetUrl` in worker.js);
* `stepE` / `run` give a small-step interleaving semantics of the transform
  stream (`handleKeepAliveStream`) together with the asynchronous invoker
  (`processApiRequest`): one event is one atomic run-to-suspension segment of
  JS code (timer tick, client cancel, or the invoker resuming at an `await`).

Theorems about the claims of the design spec follow the definitions.
-/

namespace Jimicup

/-! ## String helpers (JS `String.prototype.includes`) -/

/-- `matchAt pat l`: the char list `pat` occurs at the head of `l`. -/
def matchAt : List Char → List Char → Bool
  | [], _ => true
  | _ :: _, [] => false
  | a :: as, b :: bs => a = b && matchAt as bs

/-- `hasSub pat l`: `pat` occurs contiguously somewhere in `l`. -/
def hasSub (pat : List Char) : List Char → Bool
  | [] => matchAt pat []
  | c :: cs => matchAt pat (c :: cs) || hasSub pat cs

/-- Model of JS `s.includes(pat)`. -/
def strContains (s pat : String) : Bool :=
  hasSub pat.data s.data

/-- Join a list of strings with a separator (kernel-computable). -/
def joinSep (sep : String) : List String → String
  | [] => ""
  | [x] => x
  | x :: rest => x ++ sep ++ joinSep sep rest

/-! ## JSON values and `JSON.stringify` -/

/-- JSON values as constructed by the worker (strings, naturals, arrays,
objects); `null`/`bool`/negative numbers never occur in the worker's data. -/
inductive Json where
  | str (s : String)
  | num (n : Nat)
  | arr (elems : List Json)
  | obj (fields : List (String × Json))
deriving Repr

/-- Lowercase hex digit. -/
def hexDigit (n : Nat) : Char :=
  if n < 10 then Char.ofNat (48 + n) else Char.ofNat (87 + n)

/-- `JSON.stringify` escaping for one character inside a string literal. -/
def escChar (c : Char) : String :=
  if c = '"' then "\\\""
  else if c = '\\' then "\\\\"
  else if c = '\n' then "\\n"
  else if c = '\r' then "\\r"
  else if c = '\t' then "\\t"
  else if c.toNat = 8 then "\\b"
  else if c.toNat = 12 then "\\f"
  else if c.toNat < 32 then
    "\\u00" ++ String.mk [hexDigit (c.toNat / 16), hexDigit (c.toNat % 16)]
  else String.singleton c

/-- `JSON.stringify` rendering of a string literal, quotes included. -/
def escStr (s : String) : String :=
  "\"" ++ joinSep "" (s.data.map escChar) ++ "\""

mutual

/-- Model of `JSON.stringify` (no spaces, insertion order preserved),
with its comma-joined renderings of array elements and object fields. -/
def Json.ser : Json → String
  | .str s => escStr s
  | .num n => toString n
  | .arr elems => "[" ++ serElems elems ++ "]"
  | .obj fields => "\x7b" ++ serFields fields ++ "\x7d"

def serElems : List Json → String
  | [] => ""
  | [j] => Json.ser j
  | j :: rest => Json.ser j ++ "," ++ serElems rest

def serFields : List (String × Json) → String
  | [] => ""
  | [(k, v)] => escStr k ++ ":" ++ Json.ser v
  | (k, v) :: rest => escStr k ++ ":" ++ Json.ser v ++ "," ++ serFields rest

end

/-! ## Field access into `Json` values -/

/-- Look up a field of a JSON object. -/
def jField : Json → String → Option Json
  | .obj fields, k => (fields.find? (fun f => f.1 = k)).map (fun f => f.2)
  | _, _ => none

/-- Index into a JSON array. -/
def jItem : Json → Nat → Option Json
  | .arr elems, i => elems.get? i
  | _, _ => none

/-- Extract a string leaf (keeps statements decidable without `DecidableEq Json`). -/
def jStr : Option Json → Option String
  | some (.str s) => some s
  | _ => none

/-- Extract a numeric leaf. -/
def jNum : Option Json → Option Nat
  | some (.num n) => some n
  | _ => none

/-! ## Constants and wire frames of worker.js -/

def TARGET_HOST : String := "generativelanguage.googleapis.com"

def CORS_HEADERS : List (String × String) :=
  [("Access-Control-Allow-Origin", "*"),
   ("Access-Control-Allow-Methods", "GET, POST, OPTIONS"),
   ("Access-Control-Allow-Headers", "Content-Type, Authorization")]

/-- `data: <stringify payload>\n\n`, the SSE envelope used for every JSON frame. -/
def dataWire (j : Json) : String := "data: " ++ Json.ser j ++ "\n\n"

/-- The fixed done marker `data: [DONE]\n\n` (worker.js line 217). -/
def doneWire : String := "data: [DONE]\n\n"

/-- The heartbeat payload built on every timer tick (worker.js lines 82-103). -/
def heartbeatData : Json :=
  .obj [("candidates", .arr
          [.obj [("content", .obj
                    [("parts", .arr [.obj [("text", .str "\n\n")]]),
                     ("role", .str "model")]),
                 ("finishReason", .str "STOP"),
                 ("index", .num 0),
                 ("safetyRatings", .arr [])]]),
        ("usageMetadata", .obj
          [("promptTokenCount", .num 0),
           ("candidatesTokenCount", .num 0),
           ("totalTokenCount", .num 0)])]

/-- The heartbeat frame as it appears on the wire (worker.js line 104). -/
def heartbeatWire : String := dataWire heartbeatData

/-- Error payload for an upstream non-2xx response (worker.js lines 182-187). -/
def apiErrData (status : Nat) (statusText bodyText : String) : Json :=
  .obj [("error", .obj
    [("message", .str ("API Error: " ++ toString status ++ " " ++ statusText)),
     ("details", .str bodyText)])]

/-- Error payload of the catch-all handler (worker.js lines 223-228). -/
def internalErrData (msg : String) : Json :=
  .obj [("error", .obj
    [("message", .str "Worker internal error"),
     ("details", .str msg)])]

/-! ## Key Selector and Upstream URL Builder (`prepareTargetUrl`) -/

/-- JS `s.split(',')` at the character level: splits at every comma, keeping
empty segments. -/
def splitCommaChars : List Char → List (List Char)
  | [] => [[]]
  | c :: rest =>
    match splitCommaChars rest with
    | [] => [[]]
    | cur :: done => if c = ',' then [] :: cur :: done else (c :: cur) :: done

/-- JS `s.split(',')`. -/
def splitComma (s : String) : List String :=
  (splitCommaChars s.data).map (fun cs => String.mk cs)

/-- Characters removed by JS `String.prototype.trim` (whitespace and line
terminators). -/
def isJsSpace (c : Char) : Bool :=
  c = ' ' || c = '\t' || c = '\n' || c = '\r' ||
  c.toNat = 11 || c.toNat = 12 || c.toNat = 160 || c.toNat = 65279

def dropLeading (p : Char → Bool) : List Char → List Char
  | [] => []
  | c :: rest => if p c then dropLeading p rest else c :: rest

/-- JS `s.trim()`: strip whitespace at both ends. -/
def jsTrim (s : String) : String :=
  String.mk (dropLeading isJsSpace ((dropLeading isJsSpace s.data.reverse).reverse))

/-- `apiKeys.split(',').map(k => k.trim()).filter(Boolean)` (worker.js line 250). -/
def splitKeys (apiKeys : String) : List String :=
  ((splitComma apiKeys).map jsTrim).filter (fun k => k ≠ "")

/-- `keyArray[Math.floor(Math.random() * keyArray.length)]`: the random draw is
modelled by the oracle `pick`, reduced modulo the length; the default is never
used on any non-empty array. -/
def pickOne (keyArray : List String) (pick : Nat) (dflt : String) : String :=
  keyArray.getD (pick % keyArray.length) dflt

/-- The value the `key` parameter ends up with, for a present raw value
(worker.js lines 249-255); identity unless the raw value is a non-empty string
containing a comma that still has tokens after trim-and-filter. -/
def selectKeyParam (apiKeys : String) (pick : Nat) : String :=
  if apiKeys ≠ "" && strContains apiKeys "," then
    let keyArray := splitKeys apiKeys
    if keyArray.length > 0 then pickOne keyArray pick apiKeys else apiKeys
  else apiKeys

/-- The part of a JS `URL` object that `prepareTargetUrl` reads and writes:
the path and the ordered multi-map of query parameters. -/
structure URLModel where
  pathname : String
  searchParams : List (String × String)
deriving DecidableEq, Repr

/-- `URLSearchParams.get`: value of the first entry with the given name. -/
def paramsGet (ps : List (String × String)) (name : String) : Option String :=
  (ps.find? (fun p => p.1 = name)).map (fun p => p.2)

/-- `URLSearchParams.set`: overwrite the first entry with the given name, drop
later duplicates of it, append if absent. -/
def paramsSet : List (String × String) → String → String → List (String × String)
  | [], name, value => [(name, value)]
  | p :: rest, name, value =>
    if p.1 = name then (name, value) :: rest.filter (fun q => ¬ q.1 = name)
    else p :: paramsSet rest name value

/-- Uppercase hex digit. -/
def hexDigitUpper (n : Nat) : Char :=
  if n < 10 then Char.ofNat (48 + n) else Char.ofNat (55 + n)

/-- UTF-8 bytes of one character. -/
def utf8Bytes (c : Char) : List Nat :=
  let n := c.toNat
  if n < 0x80 then [n]
  else if n < 0x800 then [0xC0 + n / 64, 0x80 + n % 64]
  else if n < 0x10000 then [0xE0 + n / 4096, 0x80 + (n / 64) % 64, 0x80 + n % 64]
  else [0xF0 + n / 262144, 0x80 + (n / 4096) % 64, 0x80 + (n / 64) % 64, 0x80 + n % 64]

/-- `%XX` escape of one byte. -/
def formByte (b : Nat) : String :=
  "%" ++ String.mk [hexDigitUpper (b / 16), hexDigitUpper (b % 16)]

/-- Characters `URLSearchParams.toString()` leaves unescaped. -/
def formSafe (c : Char) : Bool :=
  c.isAlphanum || c = '*' || c = '-' || c = '.' || c = '_'

/-- `application/x-www-form-urlencoded` escaping of one character. -/
def formEncodeChar (c : Char) : String :=
  if c = ' ' then "+"
  else if formSafe c then String.singleton c
  else joinSep "" ((utf8Bytes c).map formByte)

/-- `application/x-www-form-urlencoded` escaping of a string. -/
def formEncode (s : String) : String :=
  joinSep "" (s.data.map formEncodeChar)

/-- `URLSearchParams.toString()`. -/
def paramsToString (ps : List (String × String)) : String :=
  joinSep "&" (ps.map (fun p => formEncode p.1 ++ "=" ++ formEncode p.2))

/-- worker.js `prepareTargetUrl` (lines 245-258).  The JS function mutates
`url.searchParams` in place via `params.set`; the model returns the target URL
string together with the post-call state of the `URL` object. -/
def prepareTargetUrl (url : URLModel) (pick : Nat) : String × URLModel :=
  let params := url.searchParams
  let finalParams :=
    match paramsGet params "key" with
    | none => params
    | some apiKeys =>
      if apiKeys ≠ "" && strContains apiKeys "," then
        let keyArray := splitKeys apiKeys
        if keyArray.length > 0 then
          paramsSet params "key" (pickOne keyArray pick apiKeys)
        else params
      else params
  ("https://" ++ TARGET_HOST ++ url.pathname ++ "?" ++ paramsToString finalParams,
   { url with searchParams := finalParams })

/-! ## The stream adapter machine

`handleKeepAliveStream` + `processApiRequest` run as single-threaded
cooperative JS: the heartbeat timer callback and the invoker's continuation
interleave only at suspension points (`await`s and timer firings).  One
`Ev` is one such atomic segment. -/

/-- A frame written to the output stream, tagged by the write site:
heartbeat tick, an ordinary `writer.write` of a payload/chunk, or the fixed
done-marker write of worker.js line 217. -/
inductive Frame where
  | hb
  | out (s : String)
  | doneF
deriving DecidableEq, Repr

/-- The bytes a frame puts on the wire. -/
def frameWire : Frame → String
  | .hb => heartbeatWire
  | .out s => s
  | .doneF => doneWire

/-- The upstream call, a black box: either the fetch promise rejects, or it
resolves to a response with a status, status text, content type, a text body,
a JSON parse outcome for the body (`Except`: `response.json()` may throw),
and the chunk sequence delivered by `response.body.getReader()`. -/
inductive Upstream where
  | fetchError (msg : String)
  | resp (status : Nat) (statusText : String) (contentType : String)
         (bodyText : String) (jsonBody : Except String Json) (chunks : List String)

/-- `Response.ok`: status in the range 200-299. -/
def respOk (status : Nat) : Bool :=
  200 ≤ status && status < 300

/-- What the `try` block of `processApiRequest` will write after the fetch
settles (worker.js lines 180-217): `.ok` gives the pending writes of the
branch taken, done-marker included; `.error` means control reaches the
`catch` block carrying the thrown message. -/
def tryPending : Upstream → Except String (List Frame)
  | .fetchError msg => .error msg
  | .resp status statusText contentType bodyText jsonBody chunks =>
    if respOk status = false then
      .ok [.out (dataWire (apiErrData status statusText bodyText)), .doneF]
    else if strContains contentType "text/event-stream" then
      .ok (chunks.map .out ++ [.doneF])
    else
      match jsonBody with
      | .ok j => .ok [.out (dataWire j), .doneF]
      | .error m => .error m

/-- Program counter of the invoker between suspension points. -/
inductive PC where
  | fetching
  | writing (pending : List Frame)
  | catching (msg : String)
  | closing (esc : Bool)
  | doneP
deriving DecidableEq, Repr

/-- Shared state of one adapted request: the completion flag
`isProcessingComplete`, the heartbeat timer, whether the client cancelled,
the frames actually on the output stream, the invoker's attempted writes,
its program counter, whether its promise rejected, and whether
`writer.close()` was reached. -/
structure IState where
  flag : Bool
  timer : Bool
  cancelled : Bool
  frames : List Frame
  attempts : List Frame
  pc : PC
  escaped : Bool
  closed : Bool
deriving DecidableEq, Repr

/-- State when `handleKeepAliveStream` returns: flag false, timer armed,
invoker awaiting the fetch. -/
def init : IState :=
  { flag := false, timer := true, cancelled := false, frames := [],
    attempts := [], pc := .fetching, escaped := false, closed := false }

/-- Scheduler events: a timer tick, the client cancelling its side of the
stream, or the invoker resuming at its next suspension point. -/
inductive Ev where
  | tick
  | cancel
  | adv
deriving DecidableEq, Repr

/-- Message recorded for a failed `writer.write`; its content is never
observable (the catch-path write fails on the same closed stream). -/
def writeErrMsg : String := "write error"

/-- One atomic segment.  `tick`: the interval callback (worker.js 77-110) —
checks the flag, then enqueues one heartbeat; on an errored stream the
enqueue throws and the handler clears the interval.  `cancel`: the
`cancel` hook (112-117) — clears the interval and sets the flag.  `adv`:
the invoker continuation — resolve the fetch (174-178, flag flip and
`clearInterval` run synchronously before any terminal write), perform one
pending write (writes reject once the client is gone), run the catch
block (219-229), or run the `finally` close (230-237, a close failure is
swallowed, while a catch-path write failure rethrows). -/
def stepE (u : Upstream) (e : Ev) (s : IState) : IState :=
  match e with
  | .tick =>
    if s.timer = false then s
    else if s.flag then s
    else if s.cancelled then { s with timer := false }
    else { s with frames := s.frames ++ [.hb] }
  | .cancel =>
    if s.cancelled then s
    else { s with timer := false, flag := true, cancelled := true }
  | .adv =>
    match s.pc with
    | .fetching =>
      match tryPending u with
      | .ok pending => { s with flag := true, timer := false, pc := .writing pending }
      | .error m => { s with flag := true, timer := false, pc := .catching m }
    | .writing [] => { s with pc := .closing false }
    | .writing (f :: rest) =>
      if s.cancelled then
        { s with attempts := s.attempts ++ [f], pc := .catching writeErrMsg }
      else
        { s with attempts := s.attempts ++ [f], frames := s.frames ++ [f],
                 pc := .writing rest }
    | .catching m =>
      let f := Frame.out (dataWire (internalErrData m))
      if s.cancelled then
        { s with flag := true, timer := false, attempts := s.attempts ++ [f],
                 pc := .closing true }
      else
        { s with flag := true, timer := false, attempts := s.attempts ++ [f],
                 frames := s.frames ++ [f], pc := .closing false }
    | .closing esc => { s with closed := true, escaped := esc, pc := .doneP }
    | .doneP => s

/-- Run a sequence of events. -/
def run (u : Upstream) : List Ev → IState → IState
  | [], s => s
  | e :: es, s => run u es (stepE u e s)

/-- Number of `adv` events that drives the invoker from `fetching` to
`doneP`: resolve, the pending writes, the empty-pending step, close — or
resolve, catch write, close. -/
def advSteps (u : Upstream) : Nat :=
  match tryPending u with
  | .ok pending => pending.length + 3
  | .error _ => 3

/-- The invoker run to completion with no timer tick and no cancellation:
the deterministic frame sequence `processApiRequest` produces. -/
def runInvoker (u : Upstream) : IState :=
  run u (List.replicate (advSteps u) .adv) init

/-- The frames `processApiRequest` writes on each completion path: the
branch writes and the done-marker on the `try` paths, the internal-error
frame alone on the `catch` paths. -/
def expectedFrames (u : Upstream) : List Frame :=
  match tryPending u with
  | .ok pending => pending
  | .error m => [.out (dataWire (internalErrData m))]

/-! ## The client-visible HTTP response of `handleKeepAliveStream` -/

/-- Status and headers of a response. -/
structure HttpResponse where
  status : Nat
  headers : List (String × String)
deriving DecidableEq, Repr

/-- Headers built at worker.js lines 126-134. -/
def keepAliveHeaders : List (String × String) :=
  [("Content-Type", "text/event-stream"),
   ("Cache-Control", "no-cache"),
   ("Connection", "keep-alive")] ++ CORS_HEADERS

/-- `handleKeepAliveStream`: the response handed to the client (built from
constants, before the upstream call settles) paired with the stream state
after the given schedule of events. -/
def handleKeepAliveStream (u : Upstream) (evs : List Ev) : HttpResponse × IState :=
  ({ status := 200, headers := keepAliveHeaders }, run u evs init)

/-! ## Generic lemmas about `run` and `stepE` -/

theorem run_cons (u : Upstream) (e : Ev) (es : List Ev) (s : IState) :
    run u (e :: es) s = run u es (stepE u e s) := rfl

theorem run_append (u : Upstream) (es1 es2 : List Ev) (s : IState) :
    run u (es1 ++ es2) s = run u es2 (run u es1 s) := by
  induction es1 generalizing s with
  | nil => rfl
  | cons e es ih => simpa [run_cons] using ih (stepE u e s)

theorem run_preserve {u : Upstream} {P : IState → Prop}
    (hstep : ∀ (s : IState) (e : Ev), P s → P (stepE u e s)) :
    ∀ (evs : List Ev) (s : IState), P s → P (run u evs s) := by
  intro evs
  induction evs with
  | nil => intro s h; exact h
  | cons e es ih => intro s h; exact ih (stepE u e s) (hstep s e h)

/-- The completion flag is never reset, the cancellation mark is never
cleared, and the timer is never re-armed, by any single step. -/
theorem stepE_mono (u : Upstream) (e : Ev) (s : IState) :
    (s.flag = true → (stepE u e s).flag = true)
    ∧ (s.cancelled = true → (stepE u e s).cancelled = true)
    ∧ ((stepE u e s).timer = true → s.timer = true) := by
  cases e with
  | tick =>
    simp only [stepE]
    split_ifs <;> simp_all
  | cancel =>
    simp only [stepE]
    split_ifs <;> simp_all
  | adv =>
    cases hpc : s.pc with
    | fetching =>
      cases h2 : tryPending u <;> simp [stepE, hpc, h2]
    | writing l =>
      cases l with
      | nil => simp [stepE, hpc]
      | cons f rest =>
        simp only [stepE, hpc]
        split_ifs <;> simp
    | catching m =>
      simp only [stepE, hpc]
      split_ifs <;> simp
    | closing esc => simp [stepE, hpc]
    | doneP => simp [stepE, hpc]

/-- Once the client has cancelled (so the flag is set and the stream is
errored), no step puts another frame on the output stream. -/
theorem stepE_frames_frozen (u : Upstream) (e : Ev) (s : IState)
    (hc : s.cancelled = true) (hf : s.flag = true) :
    (stepE u e s).frames = s.frames := by
  cases e with
  | tick =>
    simp only [stepE]
    split_ifs <;> simp_all
  | cancel => simp [stepE, hc]
  | adv =>
    cases hpc : s.pc with
    | fetching => cases h2 : tryPending u <;> simp [stepE, hpc, h2]
    | writing l =>
      cases l with
      | nil => simp [stepE, hpc]
      | cons f rest => simp [stepE, hpc, hc]
    | catching m => simp [stepE, hpc, hc]
    | closing esc => simp [stepE, hpc]
    | doneP => simp [stepE, hpc]

/-! ## Frame ordering: heartbeats never follow a terminal frame -/

/-- In `fs`, no heartbeat occurs after any non-heartbeat (terminal) frame. -/
def noHbLate (fs : List Frame) : Prop :=
  ∀ (l₁ : List Frame) (f : Frame) (l₂ : List Frame),
    fs = l₁ ++ f :: l₂ → f ≠ Frame.hb → Frame.hb ∉ l₂

theorem noHbLate_of_allHb {fs : List Frame} (h : ∀ f ∈ fs, f = Frame.hb) :
    noHbLate fs := by
  intro l₁ f l₂ heq hf
  exact absurd (h f (heq ▸ List.mem_append_right l₁ (List.mem_cons_self f l₂))) hf

theorem noHbLate_append {fs : List Frame} {g : Frame}
    (h : noHbLate fs) (hg : g ≠ Frame.hb) : noHbLate (fs ++ [g]) := by
  intro l₁ f l₂ heq hf
  rcases l₂.eq_nil_or_concat with h2 | ⟨l₂', a, h2⟩
  · subst h2; exact List.not_mem_nil Frame.hb
  · rw [List.concat_eq_append] at h2
    subst h2
    have heq' : fs ++ [g] = (l₁ ++ f :: l₂') ++ [a] := by
      simpa using heq
    obtain ⟨hfs, hga⟩ := List.append_inj' heq' rfl
    intro hmem
    rcases List.mem_append.mp hmem with hmem' | hmem'
    · exact h l₁ f l₂' hfs hf hmem'
    · rw [List.mem_singleton] at hmem'
      rw [List.cons_eq_cons] at hga
      exact hg (hga.1.trans hmem'.symm)

/-! ## Shape facts about `tryPending` -/

theorem tryPending_ok_shape {u : Upstream} {l : List Frame}
    (h : tryPending u = .ok l) :
    ∃ payload, l = payload ++ [Frame.doneF] ∧ Frame.doneF ∉ payload := by
  cases u with
  | fetchError msg => simp [tryPending] at h
  | resp status statusText contentType bodyText jsonBody chunks =>
    simp only [tryPending] at h
    split at h
    · simp only [Except.ok.injEq] at h; subst h
      exact ⟨[Frame.out (dataWire (apiErrData status statusText bodyText))], rfl, by simp⟩
    · split at h
      · simp only [Except.ok.injEq] at h; subst h
        exact ⟨chunks.map .out, rfl, by simp⟩
      · cases jsonBody with
        | ok j =>
          simp only [Except.ok.injEq] at h; subst h
          exact ⟨[Frame.out (dataWire j)], rfl, by simp⟩
        | error m => simp at h

theorem tryPending_ok_ne_nil {u : Upstream} {l : List Frame}
    (h : tryPending u = .ok l) : l ≠ [] := by
  obtain ⟨payload, hp, -⟩ := tryPending_ok_shape h
  subst hp; simp

theorem tryPending_ok_noHb {u : Upstream} {l : List Frame}
    (h : tryPending u = .ok l) : ∀ f ∈ l, f ≠ Frame.hb := by
  cases u with
  | fetchError msg => simp [tryPending] at h
  | resp status statusText contentType bodyText jsonBody chunks =>
    simp only [tryPending] at h
    split at h
    · simp only [Except.ok.injEq] at h; subst h; simp
    · split at h
      · simp only [Except.ok.injEq] at h; subst h
        intro f hmem
        rcases List.mem_append.mp hmem with hmem' | hmem'
        · obtain ⟨c, -, hc⟩ := List.mem_map.mp hmem'
          simp [← hc]
        · simp_all
      · cases jsonBody with
        | ok j => simp only [Except.ok.injEq] at h; subst h; simp
        | error m => simp at h

/-! ## The stream invariant -/

/-- Invariant of every reachable state: heartbeats only while the flag is
down, the flag flips and the timer stops at the fetch-settling step before
any terminal write, pending writes are terminal frames, and no heartbeat
follows a terminal frame. -/
def InvStream (s : IState) : Prop :=
  (s.flag = false → ∀ f ∈ s.frames, f = Frame.hb)
  ∧ (s.pc ≠ PC.fetching → s.flag = true)
  ∧ (s.pc ≠ PC.fetching → s.timer = false)
  ∧ (∀ l, s.pc = PC.writing l → ∀ f ∈ l, f ≠ Frame.hb)
  ∧ (s.timer = true → ∀ f ∈ s.frames, f = Frame.hb)
  ∧ noHbLate s.frames

theorem InvStream_init : InvStream init := by
  refine ⟨?_, ?_, ?_, ?_, ?_, ?_⟩ <;> simp [init, noHbLate]

theorem InvStream_step (u : Upstream) (e : Ev) (s : IState) (h : InvStream s) :
    InvStream (stepE u e s) := by
  obtain ⟨h1, h2, h3, h4, h5, h6⟩ := h
  cases e with
  | tick =>
    simp only [stepE]
    split_ifs with ht hf hc
    · exact ⟨h1, h2, h3, h4, h5, h6⟩
    · exact ⟨h1, h2, h3, h4, h5, h6⟩
    · refine ⟨h1, h2, ?_, h4, ?_, h6⟩
      · intro _; rfl
      · intro hx; simp at hx
    · have hflag : s.flag = false := by
        simp only [Bool.not_eq_true] at hf; exact hf
      have hall : ∀ f ∈ s.frames ++ [Frame.hb], f = Frame.hb := by
        intro f hmem
        rcases List.mem_append.mp hmem with hm | hm
        · exact h1 hflag f hm
        · simpa using hm
      refine ⟨fun _ => hall, h2, h3, h4, fun _ => hall, noHbLate_of_allHb hall⟩
  | cancel =>
    simp only [stepE]
    split_ifs with hc
    · exact ⟨h1, h2, h3, h4, h5, h6⟩
    · refine ⟨?_, ?_, ?_, h4, ?_, h6⟩
      · intro hx; simp at hx
      · intro _; rfl
      · intro _; rfl
      · intro hx; simp at hx
  | adv =>
    cases hpc : s.pc with
    | fetching =>
      cases h2' : tryPending u with
      | ok pending =>
        simp only [stepE, hpc, h2']
        refine ⟨?_, fun _ => rfl, fun _ => rfl, ?_, ?_, h6⟩
        · intro hx; simp at hx
        · intro l hl
          simp only [PC.writing.injEq] at hl
          subst hl
          exact tryPending_ok_noHb h2'
        · intro hx; simp at hx
      | error m =>
        simp only [stepE, hpc, h2']
        refine ⟨?_, fun _ => rfl, fun _ => rfl, ?_, ?_, h6⟩
        · intro hx; simp at hx
        · intro l hl; simp at hl
        · intro hx; simp at hx
    | writing l =>
      have hflag : s.flag = true := h2 (by simp [hpc])
      have htimer : s.timer = false := h3 (by simp [hpc])
      cases l with
      | nil =>
        simp only [stepE, hpc]
        refine ⟨?_, fun _ => hflag, fun _ => htimer, ?_, ?_, h6⟩
        · intro hx; rw [hflag] at hx; simp at hx
        · intro l' hl'; simp at hl'
        · intro hx; rw [htimer] at hx; simp at hx
      | cons f rest =>
        simp only [stepE, hpc]
        split_ifs with hc
        · refine ⟨?_, fun _ => hflag, fun _ => htimer, ?_, ?_, h6⟩
          · intro hx; rw [hflag] at hx; simp at hx
          · intro l' hl'; simp at hl'
          · intro hx; rw [htimer] at hx; simp at hx
        · refine ⟨?_, fun _ => hflag, fun _ => htimer, ?_, ?_, ?_⟩
          · intro hx; rw [hflag] at hx; simp at hx
          · intro l' hl'
            simp only [PC.writing.injEq] at hl'
            subst hl'
            intro g hg
            exact h4 (f :: rest) hpc g (List.mem_cons_of_mem f hg)
          · intro hx; rw [htimer] at hx; simp at hx
          · exact noHbLate_append h6 (h4 (f :: rest) hpc f (List.mem_cons_self f rest))
    | catching m =>
      have hflag : s.flag = true := h2 (by simp [hpc])
      simp only [stepE, hpc]
      split_ifs with hc
      · refine ⟨?_, fun _ => rfl, fun _ => rfl, ?_, ?_, h6⟩
        · intro hx; simp at hx
        · intro l' hl'; simp at hl'
        · intro hx; simp at hx
      · refine ⟨?_, fun _ => rfl, fun _ => rfl, ?_, ?_, ?_⟩
        · intro hx; simp at hx
        · intro l' hl'; simp at hl'
        · intro hx; simp at hx
        · exact noHbLate_append h6 (by simp)
    | closing esc =>
      have hflag : s.flag = true := h2 (by simp [hpc])
      have htimer : s.timer = false := h3 (by simp [hpc])
      simp only [stepE, hpc]
      refine ⟨?_, fun _ => hflag, fun _ => htimer, ?_, ?_, h6⟩
      · intro hx; rw [hflag] at hx; simp at hx
      · intro l' hl'; simp at hl'
      · intro hx; rw [htimer] at hx; simp at hx
    | doneP =>
      simp only [stepE, hpc]
      exact ⟨h1, h2, h3, h4, h5, h6⟩

theorem InvStream_run (u : Upstream) (evs : List Ev) :
    InvStream (run u evs init) :=
  run_preserve (fun s e hs => InvStream_step u e s hs) evs init InvStream_init

/-! ## Deterministic characterization of the invoker -/

theorem run_writing (u : Upstream) :
    ∀ (l : List Frame) (s : IState), s.cancelled = false → s.pc = .writing l →
      run u (List.replicate (l.length + 2) .adv) s =
        { s with frames := s.frames ++ l, attempts := s.attempts ++ l,
                 pc := .doneP, escaped := false, closed := true } := by
  intro l
  induction l with
  | nil =>
    intro s hc hpc
    show run u [.adv, .adv] s = _
    simp [run, run_cons, stepE, hpc]
  | cons f rest ih =>
    intro s hc hpc
    rw [show (f :: rest).length + 2 = (rest.length + 2) + 1 by simp,
        List.replicate_succ, run_cons]
    have hstep : stepE u .adv s =
        { s with attempts := s.attempts ++ [f], frames := s.frames ++ [f],
                 pc := .writing rest } := by
      simp [stepE, hpc, hc]
    rw [hstep]
    rw [ih { s with attempts := s.attempts ++ [f], frames := s.frames ++ [f],
                    pc := .writing rest } hc rfl]
    simp

theorem run_catching (u : Upstream) (m : String) (s : IState)
    (hc : s.cancelled = false) (hpc : s.pc = .catching m) :
    run u [.adv, .adv] s =
      { s with flag := true, timer := false,
               frames := s.frames ++ [Frame.out (dataWire (internalErrData m))],
               attempts := s.attempts ++ [Frame.out (dataWire (internalErrData m))],
               pc := .doneP, escaped := false, closed := true } := by
  simp [run, run_cons, stepE, hpc, hc]

/-- Full characterization of `processApiRequest` run without ticks or
cancellation: all attempted writes succeed, they are exactly
`expectedFrames`, the writer is closed and no rejection escapes. -/
theorem runInvoker_spec (u : Upstream) :
    runInvoker u =
      { flag := true, timer := false, cancelled := false,
        frames := expectedFrames u, attempts := expectedFrames u,
        pc := .doneP, escaped := false, closed := true } := by
  unfold runInvoker advSteps expectedFrames
  cases h : tryPending u with
  | error m =>
    simp only [h]
    rw [show (3:Nat) = 2 + 1 from rfl, List.replicate_succ, run_cons]
    have hstep : stepE u .adv init =
        { init with flag := true, timer := false, pc := .catching m } := by
      simp [stepE, init, h]
    rw [hstep, show List.replicate 2 Ev.adv = [Ev.adv, Ev.adv] from rfl,
        run_catching u m _ rfl rfl]
    simp [init]
  | ok pending =>
    simp only [h]
    rw [show pending.length + 3 = (pending.length + 2) + 1 by omega,
        List.replicate_succ, run_cons]
    have hstep : stepE u .adv init =
        { init with flag := true, timer := false, pc := .writing pending } := by
      simp [stepE, init, h]
    rw [hstep, run_writing u pending _ rfl rfl]
    simp [init]

/-! ## Counting completion-flag transitions along a trace -/

/-- All states visited while running `evs` from `s`, `s` included. -/
def traceStates (u : Upstream) : List Ev → IState → List IState
  | [], s => [s]
  | e :: es, s => s :: traceStates u es (stepE u e s)

/-- The completion flag along the whole trace of a request. -/
def flagTrace (u : Upstream) (evs : List Ev) : List Bool :=
  (traceStates u evs init).map IState.flag

/-- Number of `false → true` transitions in a boolean trace. -/
def flips : List Bool → Nat
  | [] => 0
  | [_] => 0
  | a :: b :: rest => (if (!a && b) then 1 else 0) + flips (b :: rest)

theorem flips_cons_cons (a b : Bool) (rest : List Bool) :
    flips (a :: b :: rest) = (if (!a && b) then 1 else 0) + flips (b :: rest) := rfl

theorem traceStates_cons_head (u : Upstream) (evs : List Ev) (s : IState) :
    ∃ t, traceStates u evs s = s :: t := by
  cases evs <;> exact ⟨_, rfl⟩

theorem flips_trace_of_true (u : Upstream) :
    ∀ (evs : List Ev) (s : IState), s.flag = true →
      flips ((traceStates u evs s).map IState.flag) = 0 := by
  intro evs
  induction evs with
  | nil => intro s h; simp [traceStates, flips]
  | cons e es ih =>
    intro s h
    obtain ⟨t, ht⟩ := traceStates_cons_head u es (stepE u e s)
    have h2 : (stepE u e s).flag = true := (stepE_mono u e s).1 h
    calc flips ((traceStates u (e :: es) s).map IState.flag)
        = flips (s.flag :: (stepE u e s).flag :: t.map IState.flag) := by
          simp [traceStates, ht]
      _ = (if (!s.flag && (stepE u e s).flag) then 1 else 0)
            + flips ((stepE u e s).flag :: t.map IState.flag) := flips_cons_cons _ _ _
      _ = flips ((traceStates u es (stepE u e s)).map IState.flag) := by
          simp [h, ht]
      _ = 0 := ih _ h2

theorem flips_trace_le_one (u : Upstream) :
    ∀ (evs : List Ev) (s : IState), flips ((traceStates u evs s).map IState.flag) ≤ 1 := by
  intro evs
  induction evs with
  | nil => intro s; simp [traceStates, flips]
  | cons e es ih =>
    intro s
    obtain ⟨t, ht⟩ := traceStates_cons_head u es (stepE u e s)
    have heq : flips ((traceStates u (e :: es) s).map IState.flag)
        = (if (!s.flag && (stepE u e s).flag) then 1 else 0)
          + flips ((traceStates u es (stepE u e s)).map IState.flag) := by
      calc flips ((traceStates u (e :: es) s).map IState.flag)
          = flips (s.flag :: (stepE u e s).flag :: t.map IState.flag) := by
            simp [traceStates, ht]
        _ = (if (!s.flag && (stepE u e s).flag) then 1 else 0)
              + flips ((stepE u e s).flag :: t.map IState.flag) := flips_cons_cons _ _ _
        _ = (if (!s.flag && (stepE u e s).flag) then 1 else 0)
              + flips ((traceStates u es (stepE u e s)).map IState.flag) := by
            rw [ht]; simp
    rw [heq]
    by_cases h2 : (stepE u e s).flag = true
    · have h0 := flips_trace_of_true u es (stepE u e s) h2
      rw [h0]
      split_ifs <;> omega
    · have h2' : (stepE u e s).flag = false := by simpa using h2
      simpa [h2'] using ih (stepE u e s)

theorem flips_trace_complete (u : Upstream) :
    ∀ (evs : List Ev) (s : IState), s.flag = false → (run u evs s).flag = true →
      flips ((traceStates u evs s).map IState.flag) = 1 := by
  intro evs
  induction evs with
  | nil =>
    intro s h hr
    exact absurd hr (by simp [run, h])
  | cons e es ih =>
    intro s h hr
    obtain ⟨t, ht⟩ := traceStates_cons_head u es (stepE u e s)
    have heq : flips ((traceStates u (e :: es) s).map IState.flag)
        = (if (!s.flag && (stepE u e s).flag) then 1 else 0)
          + flips ((traceStates u es (stepE u e s)).map IState.flag) := by
      calc flips ((traceStates u (e :: es) s).map IState.flag)
          = flips (s.flag :: (stepE u e s).flag :: t.map IState.flag) := by
            simp [traceStates, ht]
        _ = (if (!s.flag && (stepE u e s).flag) then 1 else 0)
              + flips ((stepE u e s).flag :: t.map IState.flag) := flips_cons_cons _ _ _
        _ = (if (!s.flag && (stepE u e s).flag) then 1 else 0)
              + flips ((traceStates u es (stepE u e s)).map IState.flag) := by
            rw [ht]; simp
    rw [heq]
    by_cases h2 : (stepE u e s).flag = true
    · have h0 := flips_trace_of_true u es (stepE u e s) h2
      simp [h, h2, h0]
    · have h2' : (stepE u e s).flag = false := by simpa using h2
      have h1 := ih (stepE u e s) h2' (by simpa [run_cons] using hr)
      simp [h2', h1]

/-! ## Cancellation lemmas -/

/-- A cancelled request always has the flag set and the timer stopped. -/
def InvCancel (s : IState) : Prop :=
  s.cancelled = true → (s.flag = true ∧ s.timer = false)

theorem InvCancel_step (u : Upstream) (e : Ev) (s : IState) (h : InvCancel s) :
    InvCancel (stepE u e s) := by
  cases e with
  | tick =>
    simp only [stepE]
    split_ifs with ht hf hc
    · exact h
    · exact h
    · intro hc'; exact ⟨(h hc').1, rfl⟩
    · intro hc'; exact h hc'
  | cancel =>
    simp only [stepE]
    split_ifs with hc
    · exact h
    · intro _; exact ⟨rfl, rfl⟩
  | adv =>
    cases hpc : s.pc with
    | fetching =>
      cases h2 : tryPending u <;> simp only [stepE, hpc, h2] <;>
        exact fun _ => ⟨rfl, rfl⟩
    | writing l =>
      cases l with
      | nil => simpa [stepE, hpc] using h
      | cons f rest =>
        simp only [stepE, hpc]
        split_ifs with hc <;> exact fun hc' => h hc'
    | catching m =>
      simp only [stepE, hpc]
      split_ifs with hc <;> exact fun _ => ⟨rfl, rfl⟩
    | closing esc => simpa [stepE, hpc] using h
    | doneP => simpa [stepE, hpc] using h

theorem InvCancel_run (u : Upstream) (evs : List Ev) : InvCancel (run u evs init) :=
  run_preserve (fun s e hs => InvCancel_step u e s hs) evs init (by intro hx; simp [init] at hx)

theorem stepE_cancel_sets (u : Upstream) (s : IState) :
    (stepE u .cancel s).cancelled = true := by
  by_cases hc : s.cancelled = true <;> simp [stepE, hc]

/-- After cancellation the output stream is frozen: no event appends a frame. -/
theorem run_frames_frozen (u : Upstream) :
    ∀ (evs : List Ev) (s : IState), s.cancelled = true → s.flag = true →
      (run u evs s).frames = s.frames := by
  intro evs
  induction evs with
  | nil => intro s _ _; rfl
  | cons e es ih =>
    intro s hc hf
    rw [run_cons, ih _ ((stepE_mono u e s).2.1 hc) ((stepE_mono u e s).1 hf)]
    exact stepE_frames_frozen u e s hc hf

/-! ## Lemmas about the Key Selector and URL builder -/

theorem getD_mem : ∀ (l : List String) (n : Nat) (d : String),
    n < l.length → l.getD n d ∈ l := by
  intro l
  induction l with
  | nil => intro n d h; simp at h
  | cons a l ih =>
    intro n d h
    cases n with
    | zero => simp [List.getD]
    | succ n =>
      have : l.getD n d ∈ l := ih n d (by simpa using h)
      simpa [List.getD] using List.mem_cons_of_mem a this

theorem paramsGet_paramsSet (ps : List (String × String)) (name value : String) :
    paramsGet (paramsSet ps name value) name = some value := by
  induction ps with
  | nil => simp [paramsSet, paramsGet]
  | cons p rest ih =>
    by_cases hp : p.1 = name
    · simp [paramsSet, hp, paramsGet]
    · simp only [paramsSet, if_neg hp]
      simp only [paramsGet, List.find?_cons, decide_eq_false hp]
      simpa [paramsGet] using ih

theorem paramsSet_filter_ne (ps : List (String × String)) (name value : String) :
    (paramsSet ps name value).filter (fun q => ¬ q.1 = name)
      = ps.filter (fun q => ¬ q.1 = name) := by
  induction ps with
  | nil => simp [paramsSet]
  | cons p rest ih =>
    by_cases hp : p.1 = name
    · simp [paramsSet, hp, List.filter_filter]
    · simp only [paramsSet, if_neg hp, List.filter_cons]
      have hd : (decide ¬p.1 = name) = true := by simp [hp]
      rw [hd]
      simp only [if_pos rfl]
      rw [ih]

/-! ## The invoker after a client cancellation -/

theorem stepE_cancel_init (u : Upstream) :
    stepE u .cancel init = { init with flag := true, timer := false, cancelled := true } := by
  simp [stepE, init]

/-- Run after an immediate cancellation: every write fails, the catch-path
write fails as well, and the rejection escapes `processApiRequest`. -/
theorem run_cancel_escapes (u : Upstream) :
    (run u [.cancel, .adv, .adv, .adv, .adv] init).escaped = true := by
  cases h : tryPending u with
  | error m =>
    simp [run, run_cons, stepE, init, h]
  | ok pending =>
    obtain ⟨f, rest, hfr⟩ := List.exists_cons_of_ne_nil (tryPending_ok_ne_nil h)
    subst hfr
    simp [run, run_cons, stepE, init, h]

/-! ## Field access helpers for the heartbeat payload -/

/-- Field lookup through `Option`. -/
def oField (o : Option Json) (k : String) : Option Json :=
  o.bind (fun j => jField j k)

/-- Array indexing through `Option`. -/
def oItem (o : Option Json) (i : Nat) : Option Json :=
  o.bind (fun j => jItem j i)

/-- `heartbeatData.candidates[0].content.parts[0].text`. -/
def heartbeatTextField : Option String :=
  jStr (oField (oItem (oField (oField (oItem (oField (some heartbeatData)
    "candidates") 0) "content") "parts") 0) "text")

/-- `heartbeatData.candidates[0].finishReason`. -/
def heartbeatFinishReason : Option String :=
  jStr (oField (oItem (oField (some heartbeatData) "candidates") 0) "finishReason")

/-- `heartbeatData.usageMetadata.<k>`. -/
def heartbeatUsageCount (k : String) : Option Nat :=
  jNum (oField (oField (some heartbeatData) "usageMetadata") k)

/-- A representative successful JSON upstream exchange, used as the concrete
input of several witnesses. -/
def uJsonW : Upstream :=
  .resp 200 "OK" "application/json" "" (.ok (.obj [("x", .num 1)])) []

/-! ## Claims -/

/-- Claim C6: the Key Selector leaves an absent or comma-free credential
value unchanged; otherwise it splits on commas, trims each token, drops
empty tokens, and returns one element of the surviving list, falling back
to the raw value when nothing survives.  The chosen value is what the `key`
parameter carries afterwards. -/
theorem key_selector_spec :
    ∀ (raw : String) (pick : Nat) (url : URLModel),
      (strContains raw "," = false → selectKeyParam raw pick = raw)
      ∧ (strContains raw "," = true → splitKeys raw ≠ [] →
          selectKeyParam raw pick ∈ splitKeys raw)
      ∧ (strContains raw "," = true → splitKeys raw = [] →
          selectKeyParam raw pick = raw)
      ∧ (paramsGet url.searchParams "key" = none →
          (prepareTargetUrl url pick).2 = url)
      ∧ (paramsGet url.searchParams "key" = some raw →
          paramsGet (prepareTargetUrl url pick).2.searchParams "key"
            = some (selectKeyParam raw pick)) := by
  intro raw pick url
  refine ⟨?_, ?_, ?_, ?_, ?_⟩
  · intro h
    simp [selectKeyParam, h]
  · intro h hne
    have hraw : ¬ raw = "" := by
      intro he; subst he; exact absurd h (by decide)
    have hlen : 0 < (splitKeys raw).length := List.length_pos.mpr hne
    have hgd := getD_mem (splitKeys raw) (pick % (splitKeys raw).length) raw
      (Nat.mod_lt _ hlen)
    simpa [selectKeyParam, h, hraw, hlen, pickOne] using hgd
  · intro h hemp
    have hraw : ¬ raw = "" := by
      intro he; subst he; exact absurd h (by decide)
    simp [selectKeyParam, h, hraw, hemp]
  · intro h
    simp [prepareTargetUrl, h]
  · intro h
    simp only [prepareTargetUrl, h]
    by_cases h1 : (¬raw = "" ∧ strContains raw "," = true)
    · by_cases h2 : 0 < (splitKeys raw).length
      · simp [h1, h2, selectKeyParam, paramsGet_paramsSet]
      · simp [h1, h2, selectKeyParam, h]
    · simp [h1, selectKeyParam, h]

/-- Witness for C6 at the spec's own examples: `" a , b "` yields a trimmed
element of `["a", "b"]`, and `"single"` passes through unchanged. -/
theorem key_selector_spec_witness :
    selectKeyParam " a , b " 0 ∈ splitKeys " a , b "
    ∧ selectKeyParam " a , b " 0 = "a"
    ∧ splitKeys " a , b " = ["a", "b"]
    ∧ selectKeyParam "single" 3 = "single" :=
  ⟨(key_selector_spec " a , b " 0 ⟨"", []⟩).2.1 (by decide) (by decide),
   by decide, by decide,
   (key_selector_spec "single" 3 ⟨"", []⟩).1 (by decide)⟩

/-- Claim C8, counterexample: `prepareTargetUrl` is not free of side effects
on its input; for `key=a,b` it overwrites the `key` entry of the input URL
object's `searchParams` with the selected key. -/
theorem prepareTargetUrl_mutates_input :
    (prepareTargetUrl { pathname := "/v1", searchParams := [("key", "a,b")] } 0).2
      ≠ { pathname := "/v1", searchParams := [("key", "a,b")] } := by
  decide

/-- Claim C8 (amended): `prepareTargetUrl` is total and returns
`https://{host}{path}?{params}`; every non-`key` query parameter is copied
verbatim, an absent `key` parameter leaves the URL untouched, but a
comma-separated `key` value is overwritten in place in the input URL's
`searchParams` with the selected key. -/
theorem prepareTargetUrl_spec :
    ∀ (url : URLModel) (pick : Nat),
      (prepareTargetUrl url pick).1
        = "https://" ++ TARGET_HOST ++ url.pathname ++ "?"
            ++ paramsToString (prepareTargetUrl url pick).2.searchParams
      ∧ (prepareTargetUrl url pick).2.pathname = url.pathname
      ∧ (prepareTargetUrl url pick).2.searchParams.filter (fun q => ¬ q.1 = "key")
          = url.searchParams.filter (fun q => ¬ q.1 = "key")
      ∧ (paramsGet url.searchParams "key" = none →
          (prepareTargetUrl url pick).2 = url) := by
  intro url pick
  refine ⟨rfl, ?_, ?_, ?_⟩
  · cases h : paramsGet url.searchParams "key" <;> simp [prepareTargetUrl, h]
  · simp only [prepareTargetUrl]
    cases h : paramsGet url.searchParams "key" with
    | none => rfl
    | some raw =>
      by_cases h1 : (¬raw = "" ∧ strContains raw "," = true)
      · by_cases h2 : 0 < (splitKeys raw).length
        · have hf := paramsSet_filter_ne url.searchParams "key"
            (pickOne (splitKeys raw) pick raw)
          simp only [decide_not] at hf
          simp [h1, h2, hf]
        · simp [h1, h2]
      · simp [h1]
  · intro h
    simp [prepareTargetUrl, h]

/-- Witness for C8 at a URL with no `key` parameter: it passes through
entirely unchanged. -/
theorem prepareTargetUrl_spec_witness :
    (prepareTargetUrl { pathname := "/v1", searchParams := [("alt", "sse")] } 7).2
      = { pathname := "/v1", searchParams := [("alt", "sse")] } :=
  (prepareTargetUrl_spec { pathname := "/v1", searchParams := [("alt", "sse")] } 7).2.2.2
    (by decide)

/-- Claim C7, counterexample: the heartbeat payload's text content is two
newline characters, not the empty string the claim asks for. -/
theorem heartbeat_text_not_empty :
    heartbeatTextField = some "\n\n" ∧ ¬ heartbeatTextField = some "" := by
  decide

/-- Claim C7 (amended): every heartbeat frame is `data: <JSON>\n\n` where the
JSON mimics the upstream success envelope with blank (two-newline) text
content, finish reason STOP, and all three usage counters zero. -/
theorem heartbeat_frame_shape :
    frameWire Frame.hb = "data: " ++ Json.ser heartbeatData ++ "\n\n"
    ∧ heartbeatTextField = some "\n\n"
    ∧ heartbeatFinishReason = some "STOP"
    ∧ heartbeatUsageCount "promptTokenCount" = some 0
    ∧ heartbeatUsageCount "candidatesTokenCount" = some 0
    ∧ heartbeatUsageCount "totalTokenCount" = some 0 :=
  ⟨rfl, by decide, by decide, by decide, by decide, by decide⟩

/-- Claim C10: the adapted response the client receives has status 200 with
`text/event-stream`, cache disabled, keep-alive and the CORS headers, and it
is one fixed value, independent of how the upstream call turns out. -/
theorem adapted_response_fixed :
    ∀ (u : Upstream) (evs : List Ev),
      (handleKeepAliveStream u evs).1.status = 200
      ∧ ("Content-Type", "text/event-stream") ∈ (handleKeepAliveStream u evs).1.headers
      ∧ ("Cache-Control", "no-cache") ∈ (handleKeepAliveStream u evs).1.headers
      ∧ ("Connection", "keep-alive") ∈ (handleKeepAliveStream u evs).1.headers
      ∧ ("Access-Control-Allow-Origin", "*") ∈ (handleKeepAliveStream u evs).1.headers
      ∧ ("Access-Control-Allow-Methods", "GET, POST, OPTIONS")
          ∈ (handleKeepAliveStream u evs).1.headers
      ∧ ("Access-Control-Allow-Headers", "Content-Type, Authorization")
          ∈ (handleKeepAliveStream u evs).1.headers
      ∧ (∀ (u' : Upstream) (evs' : List Ev),
          (handleKeepAliveStream u evs).1 = (handleKeepAliveStream u' evs').1) := by
  intro u evs
  refine ⟨rfl, ?_, ?_, ?_, ?_, ?_, ?_, fun u' evs' => rfl⟩
  · show ("Content-Type", "text/event-stream") ∈ keepAliveHeaders
    decide
  · show ("Cache-Control", "no-cache") ∈ keepAliveHeaders
    decide
  · show ("Connection", "keep-alive") ∈ keepAliveHeaders
    decide
  · show ("Access-Control-Allow-Origin", "*") ∈ keepAliveHeaders
    decide
  · show ("Access-Control-Allow-Methods", "GET, POST, OPTIONS") ∈ keepAliveHeaders
    decide
  · show ("Access-Control-Allow-Headers", "Content-Type, Authorization") ∈ keepAliveHeaders
    decide

/-- Claim C1, counterexample: on the internal-exception path (the fetch
promise rejects), the invoker writes the internal-error frame and closes
the stream without ever writing the done-marker, so the claimed
"error frame, then `data: [DONE]`, then close" sequence does not hold. -/
theorem fetchError_no_done_marker :
    (runInvoker (Upstream.fetchError "network error")).frames
      = [Frame.out
          "data: \x7b\"error\":\x7b\"message\":\"Worker internal error\",\"details\":\"network error\"\x7d\x7d\n\n"]
    ∧ Frame.doneF ∉ (runInvoker (Upstream.fetchError "network error")).frames
    ∧ (runInvoker (Upstream.fetchError "network error")).closed = true := by
  decide

/-- Claim C1 (amended): on every completion path the stream is closed after
the frames of `expectedFrames`; on the upstream-success and upstream-non-2xx
paths the payload is followed by exactly one done-marker, which is last; on
the internal-exception paths a single internal-error frame is written and no
done-marker follows it. -/
theorem invoker_terminal_sequence :
    ∀ u : Upstream,
      (runInvoker u).closed = true
      ∧ (runInvoker u).frames = expectedFrames u
      ∧ (∀ pending, tryPending u = .ok pending →
          ∃ payload, (runInvoker u).frames = payload ++ [Frame.doneF]
            ∧ Frame.doneF ∉ payload)
      ∧ (∀ m, tryPending u = .error m →
          (runInvoker u).frames = [Frame.out (dataWire (internalErrData m))]
          ∧ Frame.doneF ∉ (runInvoker u).frames) := by
  intro u
  have hs := runInvoker_spec u
  refine ⟨by simp [hs], by simp [hs], ?_, ?_⟩
  · intro pending hp
    obtain ⟨payload, h1, h2⟩ := tryPending_ok_shape hp
    exact ⟨payload, by simp [hs, expectedFrames, hp, h1], h2⟩
  · intro m hm
    exact ⟨by simp [hs, expectedFrames, hm], by simp [hs, expectedFrames, hm]⟩

/-- Witness for C1 at two concrete exchanges: a JSON success produces a
payload followed by the final done-marker, and a rejected fetch produces
the lone internal-error frame. -/
theorem invoker_terminal_sequence_witness :
    (∃ payload, (runInvoker uJsonW).frames = payload ++ [Frame.doneF]
      ∧ Frame.doneF ∉ payload)
    ∧ ((runInvoker (Upstream.fetchError "boom")).frames
        = [Frame.out (dataWire (internalErrData "boom"))]
      ∧ Frame.doneF ∉ (runInvoker (Upstream.fetchError "boom")).frames) :=
  ⟨(invoker_terminal_sequence uJsonW).2.2.1
      [Frame.out "data: \x7b\"x\":1\x7d\n\n", Frame.doneF] rfl,
   (invoker_terminal_sequence (Upstream.fetchError "boom")).2.2.2 "boom" rfl⟩

/-- Claim C2: under every interleaving of timer ticks, cancellation and
invoker continuations, no heartbeat is written once the completion flag is
true (a tick then leaves the stream untouched), heartbeats only ever exist
while the flag is down, no heartbeat follows any terminal frame, and a
terminal frame on the stream means the flag is up and the timer stopped. -/
theorem no_heartbeat_after_flag :
    ∀ (u : Upstream) (evs : List Ev),
      noHbLate (run u evs init).frames
      ∧ ((run u evs init).flag = false → ∀ f ∈ (run u evs init).frames, f = Frame.hb)
      ∧ ((∃ f ∈ (run u evs init).frames, f ≠ Frame.hb) →
          (run u evs init).flag = true ∧ (run u evs init).timer = false)
      ∧ (∀ s : IState, s.flag = true → (stepE u Ev.tick s).frames = s.frames) := by
  intro u evs
  obtain ⟨h1, h2, h3, h4, h5, h6⟩ := InvStream_run u evs
  refine ⟨h6, h1, ?_, ?_⟩
  · rintro ⟨f, hmem, hne⟩
    constructor
    · cases hflag : (run u evs init).flag
      · exact absurd (h1 hflag f hmem) hne
      · rfl
    · cases htimer : (run u evs init).timer
      · rfl
      · exact absurd (h5 htimer f hmem) hne
  · intro s hf
    simp only [stepE]
    split_ifs <;> simp_all

/-- Witness for C2: with the flag already set, a tick writes nothing, and a
completed JSON exchange (whose stream holds a terminal frame) has its flag
set and timer stopped. -/
theorem no_heartbeat_after_flag_witness :
    (stepE uJsonW Ev.tick { init with flag := true }).frames
      = ({ init with flag := true } : IState).frames
    ∧ ((run uJsonW [Ev.adv, Ev.adv, Ev.adv, Ev.adv, Ev.adv] init).flag = true
        ∧ (run uJsonW [Ev.adv, Ev.adv, Ev.adv, Ev.adv, Ev.adv] init).timer = false) :=
  ⟨(no_heartbeat_after_flag uJsonW []).2.2.2 { init with flag := true } rfl,
   (no_heartbeat_after_flag uJsonW [Ev.adv, Ev.adv, Ev.adv, Ev.adv, Ev.adv]).2.2.1
      ⟨Frame.doneF, by decide, by decide⟩⟩

/-- Claim C3, counterexample: after a client cancellation the invoker still
attempts terminal writes (two attempts here), and the rejection of the
catch-path write escapes `processApiRequest`, contradicting the claim that
no further writes are attempted and no exception escapes. -/
theorem cancel_rejection_escapes :
    (run uJsonW [Ev.cancel, Ev.adv, Ev.adv, Ev.adv, Ev.adv] init).escaped = true
    ∧ (run uJsonW [Ev.cancel, Ev.adv, Ev.adv, Ev.adv, Ev.adv] init).attempts.length = 2 := by
  decide

/-- Claim C3 (amended): client cancellation sets the completion flag, stops
the timer, and freezes the output stream (no heartbeat or terminal frame is
ever written afterwards, so no frame write succeeds); the invoker still
attempts its terminal writes, they fail, and the failed catch-path write
makes the invoker's promise reject (the close failure itself is swallowed,
but this rejection escapes). -/
theorem cancel_stops_timer_and_freezes :
    ∀ (u : Upstream) (evs1 evs2 : List Ev),
      (run u (evs1 ++ [Ev.cancel]) init).cancelled = true
      ∧ (run u (evs1 ++ [Ev.cancel]) init).flag = true
      ∧ (run u (evs1 ++ [Ev.cancel]) init).timer = false
      ∧ (run u ((evs1 ++ [Ev.cancel]) ++ evs2) init).frames
          = (run u (evs1 ++ [Ev.cancel]) init).frames
      ∧ (run u [Ev.cancel, Ev.adv, Ev.adv, Ev.adv, Ev.adv] init).escaped = true := by
  intro u evs1 evs2
  have hc : (run u (evs1 ++ [Ev.cancel]) init).cancelled = true := by
    rw [run_append]
    exact stepE_cancel_sets u (run u evs1 init)
  have hic := InvCancel_run u (evs1 ++ [Ev.cancel]) hc
  refine ⟨hc, hic.1, hic.2, ?_, run_cancel_escapes u⟩
  rw [run_append]
  exact run_frames_frozen u evs2 _ hc hic.1

/-- Claim C4: an upstream non-2xx response yields exactly one error frame
carrying `API Error: <status> <statusText>` and the raw error body, then the
done-marker, and the stream is closed. -/
theorem upstream_error_frames :
    ∀ (status : Nat) (statusText contentType bodyText : String)
      (jsonBody : Except String Json) (chunks : List String),
      respOk status = false →
      (runInvoker (.resp status statusText contentType bodyText jsonBody chunks)).frames
        = [Frame.out (dataWire (apiErrData status statusText bodyText)), Frame.doneF]
      ∧ (runInvoker (.resp status statusText contentType bodyText jsonBody chunks)).closed
          = true := by
  intro status statusText contentType bodyText jsonBody chunks h
  have hs := runInvoker_spec (.resp status statusText contentType bodyText jsonBody chunks)
  exact ⟨by simp [hs, expectedFrames, tryPending, h], by simp [hs]⟩

/-- Witness for C4 at the spec's Scenario B: 429 with body `"rate limited"`
produces an error frame carrying status 429 and that body, then done. -/
theorem upstream_error_frames_witness :
    (runInvoker (.resp 429 "Too Many Requests" "application/json" "rate limited"
        (.error "not json") [])).frames
      = [Frame.out
          "data: \x7b\"error\":\x7b\"message\":\"API Error: 429 Too Many Requests\",\"details\":\"rate limited\"\x7d\x7d\n\n",
         Frame.doneF]
    ∧ (runInvoker (.resp 429 "Too Many Requests" "application/json" "rate limited"
        (.error "not json") [])).closed = true := by
  have h := upstream_error_frames 429 "Too Many Requests" "application/json"
    "rate limited" (.error "not json") [] (by decide)
  refine ⟨?_, h.2⟩
  rw [h.1]
  decide

/-- Claim C5: a 2xx upstream response whose content type is not an event
stream is parsed as one JSON payload and written as exactly one terminal
frame `data: <JSON>\n\n`, followed by the done-marker, before close. -/
theorem json_response_frames :
    ∀ (status : Nat) (statusText contentType bodyText : String) (j : Json)
      (chunks : List String),
      respOk status = true →
      strContains contentType "text/event-stream" = false →
      (runInvoker (.resp status statusText contentType bodyText (.ok j) chunks)).frames
        = [Frame.out ("data: " ++ Json.ser j ++ "\n\n"), Frame.doneF]
      ∧ (runInvoker (.resp status statusText contentType bodyText (.ok j) chunks)).closed
          = true := by
  intro status statusText contentType bodyText j chunks h1 h2
  have hs := runInvoker_spec (.resp status statusText contentType bodyText (.ok j) chunks)
  exact ⟨by simp [hs, expectedFrames, tryPending, h1, h2, dataWire], by simp [hs]⟩

/-- Witness for C5 at the spec's Scenario A: body `{"x":1}` becomes the frame
`data: {"x":1}\n\n` followed by `data: [DONE]\n\n`. -/
theorem json_response_frames_witness :
    (runInvoker uJsonW).frames
      = [Frame.out "data: \x7b\"x\":1\x7d\n\n", Frame.doneF]
    ∧ (runInvoker uJsonW).closed = true := by
  have h := json_response_frames 200 "OK" "application/json" ""
    (.obj [("x", .num 1)]) [] (by decide) (by decide)
  refine ⟨?_, h.2⟩
  show (runInvoker (.resp 200 "OK" "application/json" ""
    (.ok (.obj [("x", .num 1)])) [])).frames = _
  rw [h.1]
  decide

/-- Claim C9: the completion flag is monotonic (no step resets it) and is
set exactly once: along any schedule it flips from false to true at most
once, and exactly once on the full invoker run. -/
theorem completion_flag_monotonic :
    ∀ (u : Upstream),
      (∀ (e : Ev) (s : IState), s.flag = true → (stepE u e s).flag = true)
      ∧ (∀ evs : List Ev, flips (flagTrace u evs) ≤ 1)
      ∧ flips (flagTrace u (List.replicate (advSteps u) Ev.adv)) = 1 := by
  intro u
  refine ⟨fun e s h => (stepE_mono u e s).1 h,
          fun evs => flips_trace_le_one u evs init, ?_⟩
  have hflag : (run u (List.replicate (advSteps u) Ev.adv) init).flag = true := by
    have hs := runInvoker_spec u
    show (runInvoker u).flag = true
    rw [hs]
  exact flips_trace_complete u (List.replicate (advSteps u) Ev.adv) init rfl hflag

/-- Witness for C9: a step on a state with the flag set keeps it set. -/
theorem completion_flag_monotonic_witness :
    (stepE uJsonW Ev.tick { init with flag := true }).flag = true :=
  (completion_flag_monotonic uJsonW).1 Ev.tick { init with flag := true } rfl

end Jimicup
